import Mathlib

/-
Verification of the polygon geometry module (`geometry.ts`).

The module exports three functions over `Point = [number, number]` and
`Polygon = Point[]`:

  * `isPointInsideSimplePolygon`   — ray-casting (Jordan curve) containment test,
  * `isPointOnEdgeOfSimplePolygon` — distance-sum edge-membership test,
  * `closestPointOnSimplePolygonToTarget` — closest point on the polygon.

We embed the code with exact real-number arithmetic (`ℝ`): JavaScript numbers
are IEEE doubles; every claim under scrutiny is stated "modulo floating-point
tolerance", and the idealised real semantics is the standard reading.  The one
place where IEEE behaviour is *observably* different from any total real
semantics — the `0/0 = NaN` produced by a zero-length edge in the projection
loop, which makes every subsequent comparison false and hence leaves the
running minimum unchanged — is modelled by an explicit `len_sq = 0` guard that
has exactly that skip-the-edge effect (see `closestLoopStep`).
-/

/-- A `Point` is a simple `[x, y]` tuple.
Source: `export type Point = [number, number];` -/
abbrev Point : Type := ℝ × ℝ

/-- A `Polygon` is a collection of points, in clockwise or counter-clockwise order.
Source: `export type Polygon = Point[];` -/
abbrev Polygon : Type := List Point

/-- The index of the predecessor vertex.  The source loops
`for (let i = 0, j = nvert-1; i < nvert; j = i++)` pair vertex `i` with
`j = i - 1`, except on the first iteration, which pairs `0` with `nvert - 1`;
for `i < n` this is exactly `(i + n - 1) % n`. -/
def predIdx (n i : ℕ) : ℕ :=
  (i + n - 1) % n

/-- The toggle condition tested for one edge `(poly[i], poly[j])` of the
ray-casting loop; `e.1` is vertex `i` and `e.2` is vertex `j`.  Source:

    ((poly[i][1] > testy) != (poly[j][1] > testy)) &&
    (testx < (poly[j][0] - poly[i][0]) * (testy - poly[i][1]) / (poly[j][1] - poly[i][1]) + poly[i][0])

The boolean `!=` of the two comparisons is rendered as `¬(· ↔ ·)`.  (The
division is only reachable when the first conjunct holds, which forces
`poly[j][1] - poly[i][1] ≠ 0`.) -/
def insideCond (point : Point) (e : Point × Point) : Prop :=
  (¬((e.1.2 > point.2) ↔ (e.2.2 > point.2))) ∧
    point.1 < (e.2.1 - e.1.1) * (point.2 - e.1.2) / (e.2.2 - e.1.2) + e.1.1

noncomputable instance (point : Point) (e : Point × Point) : Decidable (insideCond point e) := by
  unfold insideCond; infer_instance

/-- Check if a point is inside of a SIMPLE (non-self-intersecting) polygon.
Ray casting via the Jordan curve theorem; code ported from the pnpoly page.
Source:

    export function isPointInsideSimplePolygon(point: Point, poly: Polygon): boolean {
        const nvert = poly.length;
        const [testx, testy] = point;
        let inside = false;
        for (let i = 0, j = nvert-1; i < nvert; j = i++) {
            if (<the `insideCond` test above>) { inside = !inside; }
        }
        return inside;
    }

The loop over `i` with `j` the predecessor index becomes a fold over
`List.range poly.length`; `poly.getD i (0, 0)` is `poly[i]` (the default is
never consulted, since the loop only produces in-range indices). -/
noncomputable def isPointInsideSimplePolygon (point : Point) (poly : Polygon) : Bool :=
  (List.range poly.length).foldl
    (fun inside i =>
      if insideCond point (poly.getD i (0, 0), poly.getD (predIdx poly.length i) (0, 0))
      then !inside else inside)
    false

/-- Source: `Math.sqrt((x1 - x2)**2 + (y1 - y2)**2)`. -/
noncomputable def euclideanDistance (x1 y1 x2 y2 : ℝ) : ℝ :=
  Real.sqrt ((x1 - x2) ^ 2 + (y1 - y2) ^ 2)

/-- The exact-equality test for one edge of the on-edge loop; `e.1` is vertex
`i`, `e.2` is vertex `j`.  Source:

    const ip = euclideanDistance(ix, iy, px, py);
    const pj = euclideanDistance(px, py, jx, jy);
    const ij = euclideanDistance(ix, iy, jx, jy);
    if (ip + pj === ij) { return true; } -/
def onEdgeCond (point : Point) (e : Point × Point) : Prop :=
  euclideanDistance e.1.1 e.1.2 point.1 point.2
      + euclideanDistance point.1 point.2 e.2.1 e.2.2
    = euclideanDistance e.1.1 e.1.2 e.2.1 e.2.2

noncomputable instance (point : Point) (e : Point × Point) : Decidable (onEdgeCond point e) := by
  unfold onEdgeCond; infer_instance

/-- Check if a point is on the edge of a SIMPLE (non-self-intersecting) polygon.
Source:

    export function isPointOnEdgeOfSimplePolygon(point: Point, poly: Polygon): boolean {
        const nvert = poly.length;
        const [px, py] = point;
        for (let i = 0, j = nvert-1; i < nvert; j = i++) {
            ... if (ip + pj === ij) { return true; }
        }
        return false;
    }

A loop whose body can only `return true` early or fall through is `List.any`. -/
noncomputable def isPointOnEdgeOfSimplePolygon (point : Point) (poly : Polygon) : Bool :=
  (List.range poly.length).any fun i =>
    decide (onEdgeCond point (poly.getD i (0, 0), poly.getD (predIdx poly.length i) (0, 0)))

/-- The candidate point that one iteration of the closest-point loop computes
for the edge `e = (poly[i], poly[j])`: the projection of `target` onto the
edge's line, clamped to the segment.  Source:

    a = tx - ix, b = ty - iy, c = jx - ix, d = jy - iy,
    dot = a*c+b*d, len_sq = c*c+d*d, cos_theta = dot/len_sq;
    if (cos_theta < 0)      { px = ix; py = iy; }
    else if (cos_theta > 1) { px = jx; py = jy; }
    else                    { px = ix + cos_theta*c; py = iy + cos_theta*d; } -/
noncomputable def edgeCandidate (target : Point) (e : Point × Point) : Point :=
  let a := target.1 - e.1.1
  let b := target.2 - e.1.2
  let c := e.2.1 - e.1.1
  let d := e.2.2 - e.1.2
  let dot := a * c + b * d
  let len_sq := c * c + d * d
  let cos_theta := dot / len_sq
  if cos_theta < 0 then e.1
  else if cos_theta > 1 then e.2
  else (e.1.1 + cos_theta * c, e.1.2 + cos_theta * d)

/-- One iteration of the closest-point search over the state
`(min_x, min_y, min_dist)`.  Source:

    dist = euclideanDistance(tx, ty, px, py);
    if (dist < min_dist) { min_x = px; min_y = py; min_dist = dist; }

For a zero-length edge the source divides by zero: `cos_theta = 0/0` is `NaN`
in IEEE arithmetic, both clamp comparisons are then false, `px`/`py`/`dist`
are all `NaN`, and `NaN < min_dist` is false — the iteration leaves the state
untouched.  That observable behaviour is modelled by the `len_sq = 0` guard. -/
noncomputable def closestLoopStep (target : Point) (st : ℝ × ℝ × ℝ) (e : Point × Point) :
    ℝ × ℝ × ℝ :=
  let c := e.2.1 - e.1.1
  let d := e.2.2 - e.1.2
  let len_sq := c * c + d * d
  if len_sq = 0 then st
  else
    let p := edgeCandidate target e
    let dist := euclideanDistance target.1 target.2 p.1 p.2
    if dist < st.2.2 then (p.1, p.2, dist) else st

/-- Find the point on a SIMPLE (non-self-intersecting) polygon which is closest
to the target point.  Source (compiled module, which fixes the initial state):

    export function closestPointOnSimplePolygonToTarget(poly, target) {
        if (isPointInsideSimplePolygon(target, poly) ||
            isPointOnEdgeOfSimplePolygon(target, poly)) {
            return [...target];          // a fresh copy of target
        }
        const nvert = poly.length;
        const [tx, ty] = target;
        let min_x = 0, min_y = 0, min_dist = 100000, dist;
        for (let i = 0, j = nvert - 1; i < nvert; j = i++) {
            <closestLoopStep>
        }
        return [min_x, min_y];
    } -/
noncomputable def closestPointOnSimplePolygonToTarget (poly : Polygon) (target : Point) :
    Point :=
  if isPointInsideSimplePolygon target poly || isPointOnEdgeOfSimplePolygon target poly then
    (target.1, target.2)
  else
    let st := (List.range poly.length).foldl
      (fun st i =>
        closestLoopStep target st
          (poly.getD i (0, 0), poly.getD (predIdx poly.length i) (0, 0)))
      (0, 0, 100000)
    (st.1, st.2.1)

/-! ### Edges as a list of vertex pairs

The three loops all enumerate the pairs `(poly[i], poly[i-1 mod n])` for
`i = 0, …, n-1`.  `edgePairs` builds that list of pairs directly: the list of
predecessors of `l` is `l.rotate (l.length - 1)`. -/

/-- The list of edges `(vertex i, vertex i-1 mod n)` in loop order. -/
def edgePairs {α : Type*} (l : List α) : List (α × α) :=
  l.zip (l.rotate (l.length - 1))

theorem length_edgePairs {α : Type*} (l : List α) : (edgePairs l).length = l.length := by
  simp [edgePairs]

theorem getElem_edgePairs {α : Type*} (l : List α) (i : ℕ) (h : i < (edgePairs l).length) :
    (edgePairs l)[i] =
      (l.get ⟨i, by simpa [length_edgePairs] using h⟩,
        l.get ⟨(i + l.length - 1) % l.length,
          Nat.mod_lt _ (by have := length_edgePairs l ▸ h; omega)⟩) := by
  have hi : i < l.length := by simpa [length_edgePairs] using h
  have hn : 1 ≤ l.length := by omega
  have harg : i + (l.length - 1) = i + l.length - 1 := by omega
  simp only [edgePairs, List.getElem_zip, List.getElem_rotate, harg, List.get_eq_getElem]

/-- Indexing with `poly.getD i d` is `poly[i]` for an in-range index. -/
theorem getD_eq_getElem' {α : Type*} (l : List α) (d : α) (i : ℕ) (h : i < l.length) :
    l.getD i d = l[i] := by
  simp [List.getD_eq_getElem?_getD, List.getElem?_eq_getElem h]

/-- The index-loop form of each function coincides with a fold over
`edgePairs`. -/
theorem range_map_pairs (l : Polygon) :
    (List.range l.length).map
        (fun i => (l.getD i (0, 0), l.getD (predIdx l.length i) (0, 0)))
      = edgePairs l := by
  apply List.ext_getElem
  · simp [length_edgePairs]
  · intro i h₁ h₂
    have hi : i < l.length := by simpa using h₁
    simp only [List.getElem_map, List.getElem_range, getElem_edgePairs, List.get_eq_getElem]
    have hn : 1 ≤ l.length := by omega
    have hk : (i + l.length - 1) % l.length < l.length := Nat.mod_lt _ (by omega)
    rw [predIdx, getD_eq_getElem' l _ i hi, getD_eq_getElem' l _ _ hk]

theorem isPointInside_eq_pairs (point : Point) (poly : Polygon) :
    isPointInsideSimplePolygon point poly
      = (edgePairs poly).foldl
          (fun inside e => if insideCond point e then !inside else inside) false := by
  rw [isPointInsideSimplePolygon, ← range_map_pairs, List.foldl_map]

theorem any_map_eq {α β : Type*} (l : List α) (f : α → β) (p : β → Bool) :
    (l.map f).any p = l.any (fun i => p (f i)) := by
  induction l with
  | nil => rfl
  | cons x xs ih => simp [List.any_cons, ih]

theorem isPointOnEdge_eq_pairs (point : Point) (poly : Polygon) :
    isPointOnEdgeOfSimplePolygon point poly
      = (edgePairs poly).any (fun e => decide (onEdgeCond point e)) := by
  rw [isPointOnEdgeOfSimplePolygon, ← range_map_pairs, any_map_eq]

theorem closest_eq_pairs (poly : Polygon) (target : Point) :
    closestPointOnSimplePolygonToTarget poly target
      = if isPointInsideSimplePolygon target poly
            || isPointOnEdgeOfSimplePolygon target poly then
          (target.1, target.2)
        else
          let st := (edgePairs poly).foldl (closestLoopStep target) (0, 0, 100000)
          (st.1, st.2.1) := by
  rw [closestPointOnSimplePolygonToTarget, ← range_map_pairs, List.foldl_map]

/-! ### Generic evaluation helpers -/

/-- Evaluate a concrete square root. -/
theorem sqrt_eval {a b : ℝ} (hb : 0 ≤ b) (h : b ^ 2 = a) : Real.sqrt a = b := by
  subst h; exact Real.sqrt_sq hb

/-- The on-edge test succeeds exactly when some edge passes the distance-sum
equality. -/
theorem onEdge_iff (point : Point) (poly : Polygon) :
    isPointOnEdgeOfSimplePolygon point poly = true ↔
      ∃ e ∈ edgePairs poly, onEdgeCond point e := by
  rw [isPointOnEdge_eq_pairs, List.any_eq_true]
  simp only [decide_eq_true_eq]

/-! ### The square polygon of the specification scenarios -/

/-- The square `[[0,0],[10,0],[10,10],[0,10]]` used by the spec's concrete
scenarios. -/
def squarePoly : Polygon := [(0, 0), (10, 0), (10, 10), (0, 10)]

theorem edgePairs_square :
    edgePairs squarePoly
      = [((0, 0), (0, 10)), ((10, 0), (0, 0)), ((10, 10), (10, 0)), ((0, 10), (10, 10))] := by
  simp [edgePairs, squarePoly, List.rotate]

theorem squarePoly_inside_55 : isPointInsideSimplePolygon (5, 5) squarePoly = true := by
  rw [isPointInside_eq_pairs, edgePairs_square]
  norm_num [insideCond, List.foldl_cons, List.foldl_nil]

/-! ### C3: the containment test as the spec describes it -/

/-- The containment algorithm exactly as the specification's words describe it
(§4.1): enumerate the edges, pairing each vertex `i` with its predecessor
`j = i-1 mod n`; starting from an "inside" flag `false`, toggle the flag on
every edge whose y-straddle test holds and whose horizontal-line crossing lies
strictly right of the query point; the final flag is the result.  Stated as a
flag-fold over the explicit edge list, to be compared with the index-loop
definition `isPointInsideSimplePolygon` taken from the code. -/
noncomputable def insideFlagSpec (point : Point) (poly : Polygon) : Bool :=
  (edgePairs poly).foldl
    (fun flag e => if insideCond point e then !flag else flag) false

/-- C3: `isPointInsideSimplePolygon` returns exactly the final value of the
"inside" flag computed by the iteration the spec describes: over the edges
pairing vertex `i` with its predecessor `j = i-1 mod n`, toggling the flag
whenever `(y_i > y_test) != (y_j > y_test)` and the query x-coordinate is
strictly less than the interpolated crossing x; the flag starts false. -/
theorem inside_matches_spec_flag (point : Point) (poly : Polygon) :
    isPointInsideSimplePolygon point poly = insideFlagSpec point poly := by
  rw [isPointInside_eq_pairs]; rfl

/-! ### C2: a target inside or on the polygon is returned unchanged -/

/-- C2: whenever the target is (strictly) inside the polygon or on one of its
edges, `closestPointOnSimplePolygonToTarget` returns a point with exactly the
target's coordinates.  (The source builds the result with the array spread
`[...target]`, i.e. a fresh array; object identity itself is invisible to this
value-level model.) -/
theorem closest_inside_or_edge_is_target (poly : Polygon) (target : Point)
    (h : isPointInsideSimplePolygon target poly = true
        ∨ isPointOnEdgeOfSimplePolygon target poly = true) :
    closestPointOnSimplePolygonToTarget poly target = target := by
  rw [closestPointOnSimplePolygonToTarget]
  rcases h with h | h <;> simp [h]

/-- Witness for C2 at the square and interior point `(5,5)`. -/
theorem closest_inside_or_edge_is_target_witness :
    (isPointInsideSimplePolygon (5, 5) squarePoly = true
        ∨ isPointOnEdgeOfSimplePolygon (5, 5) squarePoly = true)
      ∧ closestPointOnSimplePolygonToTarget squarePoly (5, 5) = (5, 5) :=
  ⟨Or.inl squarePoly_inside_55,
    closest_inside_or_edge_is_target squarePoly (5, 5) (Or.inl squarePoly_inside_55)⟩

/-! ### C8: determinism / purity -/

/-- C8: the three functions are deterministic maps of their argument values:
calls on equal `Point`/`Polygon` values return equal results.  (They are pure
functions of their inputs in this value-level model; there is no state to
mutate.) -/
theorem geometry_functions_deterministic (point₁ point₂ : Point) (poly₁ poly₂ : Polygon)
    (hp : point₁ = point₂) (hq : poly₁ = poly₂) :
    isPointInsideSimplePolygon point₁ poly₁ = isPointInsideSimplePolygon point₂ poly₂
      ∧ isPointOnEdgeOfSimplePolygon point₁ poly₁ = isPointOnEdgeOfSimplePolygon point₂ poly₂
      ∧ closestPointOnSimplePolygonToTarget poly₁ point₁
          = closestPointOnSimplePolygonToTarget poly₂ point₂ := by
  subst hp; subst hq; exact ⟨rfl, rfl, rfl⟩

/-- Witness for C8 at the square and the point `(5,5)`. -/
theorem geometry_functions_deterministic_witness :
    ((5, 5) : Point) = ((5, 5) : Point) ∧ squarePoly = squarePoly
      ∧ (isPointInsideSimplePolygon (5, 5) squarePoly
            = isPointInsideSimplePolygon (5, 5) squarePoly
          ∧ isPointOnEdgeOfSimplePolygon (5, 5) squarePoly
              = isPointOnEdgeOfSimplePolygon (5, 5) squarePoly
          ∧ closestPointOnSimplePolygonToTarget squarePoly (5, 5)
              = closestPointOnSimplePolygonToTarget squarePoly (5, 5)) :=
  ⟨rfl, rfl, geometry_functions_deterministic (5, 5) (5, 5) squarePoly squarePoly rfl rfl⟩

/-! ### C4: the on-edge test -/

/-- The distance-sum equality holds for the square's bottom-edge midpoint. -/
theorem onEdgeCond_square_mid : onEdgeCond (5, 0) ((10, 0), (0, 0)) := by
  have h25 : Real.sqrt 25 = 5 := sqrt_eval (by norm_num) (by norm_num)
  have h100 : Real.sqrt 100 = 10 := sqrt_eval (by norm_num) (by norm_num)
  unfold onEdgeCond euclideanDistance
  norm_num [h25, h100]

/-- C4: `isPointOnEdgeOfSimplePolygon` returns true iff some edge
`(vertex i, vertex i-1 mod n)` satisfies the exact equality
`dist(i, point) + dist(point, j) = dist(i, j)` (an early `return true` and a
final `return false` make the loop exactly an existence test); in particular
it returns true for the square's edge midpoint `(5, 0)`. -/
theorem onEdge_exists_characterisation :
    (∀ (point : Point) (poly : Polygon),
        isPointOnEdgeOfSimplePolygon point poly = true ↔
          ∃ e ∈ edgePairs poly, onEdgeCond point e)
      ∧ isPointOnEdgeOfSimplePolygon (5, 0) squarePoly = true := by
  refine ⟨onEdge_iff, ?_⟩
  rw [onEdge_iff, edgePairs_square]
  exact ⟨((10, 0), (0, 0)), by simp, onEdgeCond_square_mid⟩

/-! ### Parity machinery for the ray-casting fold (for C6 and C7) -/

/-- A toggle-fold over edges with no qualifying edge returns its accumulator. -/
theorem foldl_toggle_of_not {α : Type*} (p : α → Prop) [DecidablePred p] (l : List α)
    (b : Bool) (h : ∀ e ∈ l, ¬ p e) :
    l.foldl (fun acc e => if p e then !acc else acc) b = b := by
  induction l generalizing b with
  | nil => rfl
  | cons x xs ih =>
    rw [List.foldl_cons, if_neg (h x (by simp))]
    exact ih b fun e he => h e (by simp [he])

/-- The toggle-fold computes the parity of the number of qualifying edges. -/
theorem foldl_toggle_eq_parity {α : Type*} (p : α → Prop) [DecidablePred p] (l : List α)
    (b : Bool) :
    l.foldl (fun acc e => if p e then !acc else acc) b
      = (b != decide (Odd (l.countP fun e => decide (p e)))) := by
  induction l generalizing b with
  | nil => simp
  | cons x xs ih =>
    rw [List.foldl_cons, ih, List.countP_cons]
    by_cases hx : p x
    · have hx' : decide (p x) = true := by simpa using hx
      rw [if_pos hx, if_pos hx']
      simp only [Nat.odd_add_one, decide_not]
      generalize decide (Odd (xs.countP fun e => decide (p e))) = q
      cases b <;> cases q <;> rfl
    · have hx' : decide (p x) = false := by simpa using hx
      simp [hx, hx']

/-- Counting boolean disagreements along a zip of equal-length lists has the
parity of the two individual counts added. -/
theorem countP_bne_zip_parity {α : Type*} (g : α → Bool) :
    ∀ l₁ l₂ : List α, l₁.length = l₂.length →
      ((l₁.zip l₂).countP fun e => g e.1 != g e.2) % 2
        = (l₁.countP g + l₂.countP g) % 2 := by
  intro l₁
  induction l₁ with
  | nil =>
    intro l₂ h
    cases l₂ with
    | nil => simp
    | cons y ys => simp at h
  | cons x xs ih =>
    intro l₂ h
    cases l₂ with
    | nil => simp at h
    | cons y ys =>
      have hih := ih ys (by simpa using h)
      simp only [List.zip_cons_cons, List.countP_cons]
      cases hx : g x <;> cases hy : g y <;> simp [hx, hy] <;> omega

/-- Around the closed cycle of edges, every vertex appears once as an `i` and
once as a `j`, so the number of edges whose endpoints disagree on any boolean
vertex attribute is even. -/
theorem countP_edgePairs_bne_even {α : Type*} (g : α → Bool) (l : List α) :
    ((edgePairs l).countP fun e => g e.1 != g e.2) % 2 = 0 := by
  rw [edgePairs,
    countP_bne_zip_parity g l (l.rotate (l.length - 1)) (List.length_rotate l _).symm,
    (List.rotate_perm l (l.length - 1)).countP_eq g]
  omega

/-- Both endpoints of an edge are vertices of the polygon. -/
theorem mem_of_mem_edgePairs {α : Type*} {l : List α} {e : α × α}
    (h : e ∈ edgePairs l) : e.1 ∈ l ∧ e.2 ∈ l := by
  obtain ⟨a, b⟩ := e
  rw [edgePairs] at h
  obtain ⟨h1, h2⟩ := List.of_mem_zip h
  exact ⟨h1, (List.rotate_perm l _).mem_iff.1 h2⟩

/-- When an edge straddles the horizontal line `y = ty`, the x-coordinate at
which it crosses that line lies between the endpoints' x-coordinates. -/
theorem crossing_mem_bounds (ty xi xj : ℝ) {yi yj : ℝ}
    (h : ¬((yi > ty) ↔ (yj > ty))) :
    min xi xj ≤ (xj - xi) * (ty - yi) / (yj - yi) + xi
      ∧ (xj - xi) * (ty - yi) / (yj - yi) + xi ≤ max xi xj := by
  have hs : 0 ≤ (ty - yi) / (yj - yi) ∧ (ty - yi) / (yj - yi) ≤ 1 := by
    by_cases hyi : yi > ty <;> by_cases hyj : yj > ty
    · exact absurd (iff_of_true hyi hyj) h
    · constructor
      · rw [div_nonneg_iff]
        right
        constructor <;> nlinarith
      · rw [div_le_one_iff]
        right; right
        constructor <;> nlinarith
    · constructor
      · rw [div_nonneg_iff]
        left
        constructor <;> nlinarith
      · rw [div_le_one_iff]
        left
        constructor <;> nlinarith
    · exact absurd (iff_of_false hyi hyj) h
  obtain ⟨hs0, hs1⟩ := hs
  have hx : (xj - xi) * (ty - yi) / (yj - yi) + xi
      = xi + (ty - yi) / (yj - yi) * (xj - xi) := by ring
  rw [hx]
  rcases le_total xi xj with hij | hij
  · constructor
    · rw [min_eq_left hij]
      nlinarith [mul_nonneg hs0 (sub_nonneg.2 hij)]
    · rw [max_eq_right hij]
      nlinarith [mul_nonneg (sub_nonneg.2 hs1) (sub_nonneg.2 hij)]
  · constructor
    · rw [min_eq_right hij]
      nlinarith [mul_nonneg (sub_nonneg.2 hs1) (sub_nonneg.2 hij)]
    · rw [max_eq_left hij]
      nlinarith [mul_nonneg hs0 (sub_nonneg.2 hij)]

/-! ### C6: points outside the bounding box are classified outside -/

/-- C6: a query point strictly outside the polygon's axis-aligned bounding box
(left of every vertex, right of every vertex, below every vertex, or above
every vertex) is never classified as inside.  Left of the box every straddling
edge crosses the test line strictly right of the point, and around the closed
cycle the number of straddling edges is even, so the toggles cancel; in the
other three directions no edge toggles at all. -/
theorem outside_bbox_not_inside (point : Point) (poly : Polygon)
    (h : (∀ v ∈ poly, point.1 < v.1) ∨ (∀ v ∈ poly, v.1 < point.1)
        ∨ (∀ v ∈ poly, point.2 < v.2) ∨ (∀ v ∈ poly, v.2 < point.2)) :
    isPointInsideSimplePolygon point poly = false := by
  rw [isPointInside_eq_pairs]
  rcases h with h | h | h | h
  · -- left of the box: the toggle count is the (even) straddle count
    rw [foldl_toggle_eq_parity]
    have hc : ((edgePairs poly).countP fun e => decide (insideCond point e))
        = ((edgePairs poly).countP
            fun e => decide (e.1.2 > point.2) != decide (e.2.2 > point.2)) := by
      apply List.countP_congr
      intro e he
      obtain ⟨h1, h2⟩ := mem_of_mem_edgePairs he
      by_cases hst : ((e.1.2 > point.2) ↔ (e.2.2 > point.2))
      · by_cases hp : e.1.2 > point.2
        · simp [insideCond, hst, hp, hst.mp hp]
        · simp [insideCond, hst, hp, fun hq => hp (hst.mpr hq)]
      · have hb := (crossing_mem_bounds point.2 e.1.1 e.2.1 hst).1
        have hx : point.1 < (e.2.1 - e.1.1) * (point.2 - e.1.2) / (e.2.2 - e.1.2) + e.1.1 :=
          lt_of_lt_of_le (lt_min (h _ h1) (h _ h2)) hb
        by_cases hp : e.1.2 > point.2 <;> by_cases hq : e.2.2 > point.2
        · exact absurd (iff_of_true hp hq) hst
        · simp [insideCond, hst, hx, hp, hq]
        · simp [insideCond, hst, hx, hp, hq]
        · exact absurd (iff_of_false hp hq) hst
    have heven : ((edgePairs poly).countP
        fun e => decide (e.1.2 > point.2) != decide (e.2.2 > point.2)) % 2 = 0 :=
      countP_edgePairs_bne_even (fun v : Point => decide (v.2 > point.2)) poly
    have hodd : ¬ Odd ((edgePairs poly).countP
        fun e => decide (e.1.2 > point.2) != decide (e.2.2 > point.2)) := by
      rw [Nat.odd_iff]
      omega
    rw [hc, decide_eq_false hodd]
    rfl
  · -- right of the box: no edge toggles
    apply foldl_toggle_of_not
    rintro e he ⟨hstr, hxlt⟩
    obtain ⟨h1, h2⟩ := mem_of_mem_edgePairs he
    have hb := (crossing_mem_bounds point.2 e.1.1 e.2.1 hstr).2
    have : (e.2.1 - e.1.1) * (point.2 - e.1.2) / (e.2.2 - e.1.2) + e.1.1 < point.1 :=
      lt_of_le_of_lt hb (max_lt (h _ h1) (h _ h2))
    linarith
  · -- below the box: every vertex is strictly above the test line
    apply foldl_toggle_of_not
    rintro e he ⟨hstr, -⟩
    obtain ⟨h1, h2⟩ := mem_of_mem_edgePairs he
    exact hstr (iff_of_true (h _ h1) (h _ h2))
  · -- above the box: every vertex is strictly below the test line
    apply foldl_toggle_of_not
    rintro e he ⟨hstr, -⟩
    obtain ⟨h1, h2⟩ := mem_of_mem_edgePairs he
    exact hstr (iff_of_false (lt_asymm (h _ h1)) (lt_asymm (h _ h2)))

/-- Witness for C6: the point `(20, 5)` lies right of the square's bounding
box and is classified outside. -/
theorem outside_bbox_not_inside_witness :
    (∀ v ∈ squarePoly, v.1 < (20 : ℝ))
      ∧ isPointInsideSimplePolygon (20, 5) squarePoly = false := by
  have hv : ∀ v ∈ squarePoly, v.1 < (20 : ℝ) := by
    intro v hv
    simp only [squarePoly, List.mem_cons, List.not_mem_nil, or_false] at hv
    rcases hv with h | h | h | h <;> subst h <;> norm_num
  exact ⟨hv, outside_bbox_not_inside (20, 5) squarePoly (Or.inr (Or.inl hv))⟩

/-! ### C7: behaviour under vertex-order reversal -/

theorem zip_rotate_eq {α β : Type*} (l₁ : List α) (l₂ : List β) (k : ℕ)
    (h : l₁.length = l₂.length) :
    (l₁.zip l₂).rotate k = (l₁.rotate k).zip (l₂.rotate k) := by
  apply List.ext_getElem
  · simp [List.length_rotate, h]
  · intro i h₁ h₂
    simp only [List.getElem_rotate, List.getElem_zip, List.length_zip, h, min_self]

theorem reverse_zip_eq {α β : Type*} (l₁ : List α) (l₂ : List β)
    (h : l₁.length = l₂.length) :
    (l₁.zip l₂).reverse = l₁.reverse.zip l₂.reverse := by
  apply List.ext_getElem
  · simp [h]
  · intro i h₁ h₂
    simp only [List.getElem_reverse, List.getElem_zip, List.length_zip, List.length_reverse,
      h, min_self]

/-- Reversing the vertex list gives, up to order, the same edges with their
endpoints swapped. -/
theorem edgePairs_reverse_perm {α : Type*} (l : List α) :
    List.Perm (edgePairs l.reverse) ((edgePairs l).map Prod.swap) := by
  rcases l with - | ⟨a, tl⟩
  · exact List.Perm.refl _
  rcases tl with - | ⟨b, tl'⟩
  · exact List.Perm.refl _
  set l : List α := a :: b :: tl' with hl
  have hn2 : 2 ≤ l.length := by simp [hl]
  have hmod : 1 % l.length = 1 := Nat.mod_eq_of_lt (by omega)
  -- the reversed polygon's edges are the reversal of `l.zip (l.rotate 1)`
  have h₁ : edgePairs l.reverse = (l.zip (l.rotate 1)).reverse := by
    rw [edgePairs, List.length_reverse]
    rw [show l.reverse.rotate (l.length - 1) = (l.rotate 1).reverse by
      rw [List.reverse_rotate, hmod]]
    rw [reverse_zip_eq _ _ (by rw [List.length_rotate])]
  -- the swapped original edges are a rotation of `l.zip (l.rotate 1)`
  have h₂ : ((edgePairs l).map Prod.swap).rotate 1 = l.zip (l.rotate 1) := by
    rw [edgePairs, List.zip_swap,
      zip_rotate_eq _ _ 1 (by rw [List.length_rotate]),
      List.rotate_rotate, Nat.sub_add_cancel (by omega), List.rotate_length]
  have p1 : List.Perm (edgePairs l.reverse) (l.zip (l.rotate 1)) := by
    rw [h₁]; exact List.reverse_perm _
  have p2 : List.Perm (((edgePairs l).map Prod.swap).rotate 1)
      ((edgePairs l).map Prod.swap) := List.rotate_perm _ _
  exact p1.trans (by rw [← h₂]; exact p2)

theorem euclideanDistance_comm (x1 y1 x2 y2 : ℝ) :
    euclideanDistance x1 y1 x2 y2 = euclideanDistance x2 y2 x1 y1 := by
  unfold euclideanDistance
  ring_nf

/-- The on-edge equality does not care about the orientation of the edge. -/
theorem onEdgeCond_swap (point : Point) (e : Point × Point) :
    onEdgeCond point e.swap ↔ onEdgeCond point e := by
  unfold onEdgeCond
  simp only [Prod.fst_swap, Prod.snd_swap]
  rw [show euclideanDistance e.2.1 e.2.2 point.1 point.2
        + euclideanDistance point.1 point.2 e.1.1 e.1.2
      = euclideanDistance e.1.1 e.1.2 point.1 point.2
        + euclideanDistance point.1 point.2 e.2.1 e.2.2 by
    rw [euclideanDistance_comm e.2.1 e.2.2 point.1 point.2,
      euclideanDistance_comm point.1 point.2 e.1.1 e.1.2]
    ring]
  rw [euclideanDistance_comm e.2.1 e.2.2 e.1.1 e.1.2]

/-- Neither does the ray-casting toggle test: the y-straddle test is symmetric,
and when it holds the two endpoints have different y-coordinates and both
orientations compute the same crossing x-coordinate. -/
theorem insideCond_swap (point : Point) (e : Point × Point) :
    insideCond point e.swap ↔ insideCond point e := by
  unfold insideCond
  simp only [Prod.fst_swap, Prod.snd_swap]
  by_cases hst : ((e.1.2 > point.2) ↔ (e.2.2 > point.2))
  · constructor
    · rintro ⟨h1, -⟩; exact absurd hst.symm h1
    · rintro ⟨h1, -⟩; exact absurd hst h1
  · have hne : e.1.2 ≠ e.2.2 := fun hh => hst (by rw [hh])
    have hcross : (e.1.1 - e.2.1) * (point.2 - e.2.2) / (e.1.2 - e.2.2) + e.2.1
        = (e.2.1 - e.1.1) * (point.2 - e.1.2) / (e.2.2 - e.1.2) + e.1.1 := by
      have hd1 : e.1.2 - e.2.2 ≠ 0 := sub_ne_zero.2 hne
      have hd2 : e.2.2 - e.1.2 ≠ 0 := sub_ne_zero.2 (Ne.symm hne)
      field_simp
      ring
    rw [hcross]
    constructor <;> rintro ⟨h1, h2⟩ <;> exact ⟨fun hi => h1 hi.symm, h2⟩

/-- C7 (amended): the two boolean tests are orientation-agnostic — reversing
the vertex order changes neither `isPointInsideSimplePolygon` nor
`isPointOnEdgeOfSimplePolygon`.  (`closestPointOnSimplePolygonToTarget` is
*not* orientation-agnostic: when two edges tie for the minimal distance the
first one in iteration order wins, and reversal changes that order — see the
counterexample.) -/
theorem boolean_tests_reverse_invariant (point : Point) (poly : Polygon) :
    isPointInsideSimplePolygon point poly.reverse = isPointInsideSimplePolygon point poly
      ∧ isPointOnEdgeOfSimplePolygon point poly.reverse
          = isPointOnEdgeOfSimplePolygon point poly := by
  constructor
  · have hcnt : List.countP ((fun e => decide (insideCond point e)) ∘ Prod.swap)
        (edgePairs poly) = List.countP (fun e => decide (insideCond point e)) (edgePairs poly) := by
      apply List.countP_congr
      intro e he
      simp only [Function.comp_apply, decide_eq_true_eq]
      exact insideCond_swap point e
    rw [isPointInside_eq_pairs, isPointInside_eq_pairs,
      foldl_toggle_eq_parity, foldl_toggle_eq_parity,
      (edgePairs_reverse_perm poly).countP_eq, List.countP_map, hcnt]
  · have hiff : isPointOnEdgeOfSimplePolygon point poly.reverse = true
        ↔ isPointOnEdgeOfSimplePolygon point poly = true := by
      rw [onEdge_iff, onEdge_iff]
      constructor
      · rintro ⟨e, he, hc⟩
        have he2 := (edgePairs_reverse_perm poly).mem_iff.1 he
        obtain ⟨e', hmem, heq⟩ := List.mem_map.1 he2
        subst heq
        exact ⟨e', hmem, (onEdgeCond_swap point e').1 hc⟩
      · rintro ⟨e, he, hc⟩
        refine ⟨e.swap, ?_, (onEdgeCond_swap point e).2 hc⟩
        exact (edgePairs_reverse_perm poly).mem_iff.2 (List.mem_map_of_mem Prod.swap he)
    cases hb : isPointOnEdgeOfSimplePolygon point poly
    · cases hr : isPointOnEdgeOfSimplePolygon point poly.reverse
      · rfl
      · rw [hb] at hiff
        simpa using hiff.1 hr
    · exact hiff.2 hb

/-! ### The closest-point search loop -/

/-- The distance from the target to the candidate point an edge contributes. -/
noncomputable def candDist (target : Point) (e : Point × Point) : ℝ :=
  euclideanDistance target.1 target.2 (edgeCandidate target e).1 (edgeCandidate target e).2

/-- A zero-length edge never changes the loop state (`0/0 = NaN` in the
source; the `len_sq = 0` guard in the model). -/
theorem closestLoopStep_degenerate (target : Point) (st : ℝ × ℝ × ℝ) (e : Point × Point)
    (h : e.1 = e.2) : closestLoopStep target st e = st := by
  have h1 : e.2.1 - e.1.1 = 0 := by rw [h]; ring
  have h2 : e.2.2 - e.1.2 = 0 := by rw [h]; ring
  simp [closestLoopStep, h1, h2]

/-- A nonzero-length edge has a nonzero squared length. -/
theorem edge_len_sq_ne_zero {e : Point × Point} (h : e.1 ≠ e.2) :
    (e.2.1 - e.1.1) * (e.2.1 - e.1.1) + (e.2.2 - e.1.2) * (e.2.2 - e.1.2) ≠ 0 := by
  intro hsum
  apply h
  have hc2 : (e.2.1 - e.1.1) * (e.2.1 - e.1.1) = 0 :=
    le_antisymm (by nlinarith [mul_self_nonneg (e.2.2 - e.1.2)]) (mul_self_nonneg _)
  have hd2 : (e.2.2 - e.1.2) * (e.2.2 - e.1.2) = 0 :=
    le_antisymm (by nlinarith [mul_self_nonneg (e.2.1 - e.1.1)]) (mul_self_nonneg _)
  have hc := mul_self_eq_zero.1 hc2
  have hd := mul_self_eq_zero.1 hd2
  exact Prod.ext (by linarith) (by linarith)

/-- On a genuine edge the loop step is a guarded minimum update with the
candidate point. -/
theorem closestLoopStep_nondeg (target : Point) (st : ℝ × ℝ × ℝ) (e : Point × Point)
    (h : e.1 ≠ e.2) :
    closestLoopStep target st e
      = if candDist target e < st.2.2
        then ((edgeCandidate target e).1, (edgeCandidate target e).2, candDist target e)
        else st := by
  simp only [closestLoopStep, candDist]
  rw [if_neg (edge_len_sq_ne_zero h)]

/-- Invariant of the minimum search: the final state is the initial one or
carries the candidate point of some nonzero-length edge; the final minimum
never exceeds the initial one, nor any nonzero-length edge's candidate
distance. -/
theorem closestLoop_spec (target : Point) (edges : List (Point × Point)) :
    ∀ st : ℝ × ℝ × ℝ,
      (edges.foldl (closestLoopStep target) st = st
          ∨ ∃ e ∈ edges, e.1 ≠ e.2
              ∧ edges.foldl (closestLoopStep target) st
                  = ((edgeCandidate target e).1, (edgeCandidate target e).2, candDist target e))
        ∧ (edges.foldl (closestLoopStep target) st).2.2 ≤ st.2.2
        ∧ ∀ e ∈ edges, e.1 ≠ e.2 →
            (edges.foldl (closestLoopStep target) st).2.2 ≤ candDist target e := by
  induction edges with
  | nil =>
    intro st
    exact ⟨Or.inl rfl, le_refl _, by simp⟩
  | cons x xs ih =>
    intro st
    rw [List.foldl_cons]
    obtain ⟨ih1, ih2, ih3⟩ := ih (closestLoopStep target st x)
    have hstep_le : (closestLoopStep target st x).2.2 ≤ st.2.2 := by
      by_cases hx : x.1 = x.2
      · rw [closestLoopStep_degenerate target st x hx]
      · rw [closestLoopStep_nondeg target st x hx]
        by_cases hlt : candDist target x < st.2.2
        · rw [if_pos hlt]; exact le_of_lt hlt
        · rw [if_neg hlt]
    refine ⟨?_, le_trans ih2 hstep_le, ?_⟩
    · rcases ih1 with hsame | ⟨e, he, hne, heq⟩
      · by_cases hx : x.1 = x.2
        · rw [hsame, closestLoopStep_degenerate target st x hx]
          exact Or.inl rfl
        · rw [hsame, closestLoopStep_nondeg target st x hx]
          by_cases hlt : candDist target x < st.2.2
          · exact Or.inr ⟨x, by simp, hx, by rw [if_pos hlt]⟩
          · rw [if_neg hlt]; exact Or.inl rfl
      · exact Or.inr ⟨e, by simp [he], hne, heq⟩
    · intro e he hne
      rcases List.mem_cons.1 he with rfl | hmem
      · refine le_trans ih2 ?_
        rw [closestLoopStep_nondeg target st e hne]
        by_cases hlt : candDist target e < st.2.2
        · rw [if_pos hlt]
        · rw [if_neg hlt]; exact not_lt.1 hlt
      · exact ih3 e hmem hne

/-- If no candidate beats the current minimum, the search leaves its state
untouched. -/
theorem closestLoop_no_update (target : Point) (edges : List (Point × Point)) :
    ∀ st : ℝ × ℝ × ℝ, (∀ e ∈ edges, e.1 ≠ e.2 → st.2.2 ≤ candDist target e) →
      edges.foldl (closestLoopStep target) st = st := by
  induction edges with
  | nil => intro st _; rfl
  | cons x xs ih =>
    intro st h
    have hstep : closestLoopStep target st x = st := by
      by_cases hx : x.1 = x.2
      · exact closestLoopStep_degenerate target st x hx
      · rw [closestLoopStep_nondeg target st x hx,
          if_neg (not_lt.2 (h x (by simp) hx))]
    rw [List.foldl_cons, hstep]
    exact ih st fun e he hne => h e (by simp [he]) hne

/-- Every vertex heads some edge of the loop. -/
theorem exists_edge_fst {l : List Point} {v : Point} (h : v ∈ l) :
    ∃ e ∈ edgePairs l, e.1 = v := by
  have hm : (edgePairs l).map Prod.fst = l := by
    rw [edgePairs]
    exact List.map_fst_zip _ _ (by rw [List.length_rotate])
  rw [← hm] at h
  obtain ⟨e, he, heq⟩ := List.mem_map.1 h
  exact ⟨e, he, heq⟩

/-- The clamped projection, written out on coordinates. -/
theorem edgeCandidate_eq (tx ty ix iy jx jy : ℝ) :
    edgeCandidate (tx, ty) ((ix, iy), (jx, jy))
      = (if ((tx - ix) * (jx - ix) + (ty - iy) * (jy - iy))
              / ((jx - ix) * (jx - ix) + (jy - iy) * (jy - iy)) < 0 then (ix, iy)
         else if ((tx - ix) * (jx - ix) + (ty - iy) * (jy - iy))
              / ((jx - ix) * (jx - ix) + (jy - iy) * (jy - iy)) > 1 then (jx, jy)
         else (ix + ((tx - ix) * (jx - ix) + (ty - iy) * (jy - iy))
                / ((jx - ix) * (jx - ix) + (jy - iy) * (jy - iy)) * (jx - ix),
               iy + ((tx - ix) * (jx - ix) + (ty - iy) * (jy - iy))
                / ((jx - ix) * (jx - ix) + (jy - iy) * (jy - iy)) * (jy - iy))) := rfl

/-- The candidate point of an edge is at most as far from the target as the
edge's `i` vertex is. -/
theorem candDist_le_dist_fst (target : Point) (e : Point × Point) (h : e.1 ≠ e.2) :
    candDist target e ≤ euclideanDistance target.1 target.2 e.1.1 e.1.2 := by
  obtain ⟨tx, ty⟩ := target
  obtain ⟨⟨ix, iy⟩, jx, jy⟩ := e
  have hL : 0 < (jx - ix) * (jx - ix) + (jy - iy) * (jy - iy) := by
    rcases lt_or_eq_of_le (add_nonneg (mul_self_nonneg (jx - ix))
        (mul_self_nonneg (jy - iy))) with hlt | heq
    · exact hlt
    · exact absurd heq.symm (edge_len_sq_ne_zero h)
  rw [candDist, edgeCandidate_eq]
  set K := (tx - ix) * (jx - ix) + (ty - iy) * (jy - iy) with hKdef
  set L := (jx - ix) * (jx - ix) + (jy - iy) * (jy - iy) with hLdef
  by_cases h1 : K / L < 0
  · rw [if_pos h1]
  · rw [if_neg h1]
    by_cases h2 : K / L > 1
    · rw [if_pos h2]
      have hKL : L < K := (one_lt_div hL).1 h2
      simp only [euclideanDistance]
      apply Real.sqrt_le_sqrt
      nlinarith [hKL, hL]
    · rw [if_neg h2]
      set s := K / L with hsdef
      have hsL : s * L = K := div_mul_cancel₀ K (ne_of_gt hL)
      have hsK : s * K = s ^ 2 * L := by rw [← hsL]; ring
      have hpos : 0 ≤ s ^ 2 * L := mul_nonneg (sq_nonneg s) hL.le
      simp only [euclideanDistance]
      apply Real.sqrt_le_sqrt
      nlinarith [hsK, hpos, hsL]

/-- The `euclideanDistance` from a point to itself is zero. -/
theorem euclideanDistance_self (x y : ℝ) : euclideanDistance x y x y = 0 := by
  simp [euclideanDistance]

/-- The candidate point of a nonzero-length edge lies on that edge's segment:
it satisfies that edge's distance-sum equality. -/
theorem onEdgeCond_edgeCandidate (target : Point) (e : Point × Point) (h : e.1 ≠ e.2) :
    onEdgeCond (edgeCandidate target e) e := by
  obtain ⟨tx, ty⟩ := target
  obtain ⟨⟨ix, iy⟩, jx, jy⟩ := e
  have hL : 0 < (jx - ix) * (jx - ix) + (jy - iy) * (jy - iy) := by
    rcases lt_or_eq_of_le (add_nonneg (mul_self_nonneg (jx - ix))
        (mul_self_nonneg (jy - iy))) with hlt | heq
    · exact hlt
    · exact absurd heq.symm (edge_len_sq_ne_zero h)
  rw [edgeCandidate_eq]
  set K := (tx - ix) * (jx - ix) + (ty - iy) * (jy - iy) with hKdef
  set L := (jx - ix) * (jx - ix) + (jy - iy) * (jy - iy) with hLdef
  by_cases h1 : K / L < 0
  · rw [if_pos h1]
    unfold onEdgeCond
    simp only
    rw [euclideanDistance_self]
    ring
  · rw [if_neg h1]
    by_cases h2 : K / L > 1
    · rw [if_pos h2]
      unfold onEdgeCond
      simp only
      rw [euclideanDistance_self]
      ring
    · rw [if_neg h2]
      set s := K / L with hsdef
      have hs0 : 0 ≤ s := not_lt.1 h1
      have hs1 : s ≤ 1 := not_lt.1 h2
      unfold onEdgeCond
      simp only [euclideanDistance]
      have e1 : (ix - (ix + s * (jx - ix))) ^ 2 + (iy - (iy + s * (jy - iy))) ^ 2
          = s ^ 2 * L := by rw [hLdef]; ring
      have e2 : (ix + s * (jx - ix) - jx) ^ 2 + (iy + s * (jy - iy) - jy) ^ 2
          = (1 - s) ^ 2 * L := by rw [hLdef]; ring
      have e3 : (ix - jx) ^ 2 + (iy - jy) ^ 2 = L := by rw [hLdef]; ring
      rw [e1, e2, e3, Real.sqrt_mul (sq_nonneg s) L, Real.sqrt_mul (sq_nonneg (1 - s)) L,
        Real.sqrt_sq hs0, Real.sqrt_sq (by linarith : (0:ℝ) ≤ 1 - s)]
      ring

/-! ### C9: the 100000 initialisation -/

/-- C9: in the outside branch the minimum starts at `100000` and only strict
improvements are recorded; if every edge's candidate point is at distance at
least `100000` from the target, the function returns the initialisation
coordinates `(0, 0)` of the compiled module, not a point of the polygon. -/
theorem far_polygon_returns_init (poly : Polygon) (target : Point)
    (h1 : isPointInsideSimplePolygon target poly = false)
    (h2 : isPointOnEdgeOfSimplePolygon target poly = false)
    (h3 : ∀ e ∈ edgePairs poly, e.1 ≠ e.2 → 100000 ≤ candDist target e) :
    closestPointOnSimplePolygonToTarget poly target = (0, 0) := by
  rw [closest_eq_pairs, if_neg (by simp [h1, h2])]
  have hl := closestLoop_no_update target (edgePairs poly)
    ((0 : ℝ), (0 : ℝ), (100000 : ℝ)) (fun e he hne => h3 e he hne)
  simp only [hl]

/-! ### C1 (amended): the result for an outside target -/

/-- C1 (amended): for an outside target, provided the polygon has no
zero-length edge and some vertex lies within distance `100000` of the target
(without the latter the search never updates its `100000` initial minimum and
returns `(0,0)` — see the counterexample), the returned point passes the
on-edge test for the same polygon, and its distance to the target is at most
the distance from the target to every vertex. -/
theorem closest_outside_on_edge_and_nearest (poly : Polygon) (target : Point)
    (h1 : isPointInsideSimplePolygon target poly = false)
    (h2 : isPointOnEdgeOfSimplePolygon target poly = false)
    (h3 : ∀ e ∈ edgePairs poly, e.1 ≠ e.2)
    (h4 : ∃ v ∈ poly, euclideanDistance target.1 target.2 v.1 v.2 < 100000) :
    isPointOnEdgeOfSimplePolygon (closestPointOnSimplePolygonToTarget poly target) poly = true
      ∧ ∀ v ∈ poly,
          euclideanDistance target.1 target.2
              (closestPointOnSimplePolygonToTarget poly target).1
              (closestPointOnSimplePolygonToTarget poly target).2
            ≤ euclideanDistance target.1 target.2 v.1 v.2 := by
  obtain ⟨v0, hv0, hd0⟩ := h4
  obtain ⟨e0, he0, he0fst⟩ := exists_edge_fst hv0
  have hne0 : e0.1 ≠ e0.2 := h3 e0 he0
  have hcand0 : candDist target e0 < 100000 := by
    refine lt_of_le_of_lt ?_ hd0
    rw [← he0fst]
    exact candDist_le_dist_fst target e0 hne0
  obtain ⟨hchar, hmono, hall⟩ :=
    closestLoop_spec target (edgePairs poly) ((0 : ℝ), (0 : ℝ), (100000 : ℝ))
  set r := (edgePairs poly).foldl (closestLoopStep target)
    ((0 : ℝ), (0 : ℝ), (100000 : ℝ)) with hr
  have hrlt : r.2.2 < 100000 := lt_of_le_of_lt (hall e0 he0 hne0) hcand0
  rcases hchar with hid | ⟨e, he, hne, heq⟩
  · rw [hid] at hrlt
    norm_num at hrlt
  · have hresult : closestPointOnSimplePolygonToTarget poly target
        = edgeCandidate target e := by
      rw [closest_eq_pairs, if_neg (by simp [h1, h2])]
      simp only [← hr, heq]
    refine ⟨?_, ?_⟩
    · rw [hresult, onEdge_iff]
      exact ⟨e, he, onEdgeCond_edgeCandidate target e hne⟩
    · intro v hv
      obtain ⟨ev, hev, hevfst⟩ := exists_edge_fst hv
      have hnev : ev.1 ≠ ev.2 := h3 ev hev
      have h5 : r.2.2 ≤ candDist target ev := hall ev hev hnev
      have h6 : candDist target ev ≤ euclideanDistance target.1 target.2 v.1 v.2 := by
        rw [← hevfst]
        exact candDist_le_dist_fst target ev hnev
      have h7 : euclideanDistance target.1 target.2
          (closestPointOnSimplePolygonToTarget poly target).1
          (closestPointOnSimplePolygonToTarget poly target).2 = r.2.2 := by
        rw [hresult, heq]
        rfl
      rw [h7]
      exact le_trans h5 h6

/-! ### C10: zero-length edges never influence the search -/

/-- C10: a zero-length edge (`len_sq = 0`, so `cos_theta = 0/0`, `NaN` in the
source, for which every comparison is false) leaves the search state
untouched, and the search over an edge list containing it equals the search
over the remaining edges. -/
theorem degenerate_edge_skipped (target : Point) (st : ℝ × ℝ × ℝ)
    (pre post : List (Point × Point)) (e : Point × Point) (h : e.1 = e.2) :
    closestLoopStep target st e = st
      ∧ (pre ++ e :: post).foldl (closestLoopStep target) st
          = (pre ++ post).foldl (closestLoopStep target) st := by
  refine ⟨closestLoopStep_degenerate target st e h, ?_⟩
  rw [List.foldl_append, List.foldl_append, List.foldl_cons,
    closestLoopStep_degenerate target _ e h]

/-- Witness for C10: a concrete duplicated vertex is skipped. -/
theorem degenerate_edge_skipped_witness :
    (((1, 2), (1, 2)) : Point × Point).1 = (((1, 2), (1, 2)) : Point × Point).2
      ∧ (closestLoopStep (0, 0) (0, 0, 100000) ((1, 2), (1, 2)) = (0, 0, 100000)
          ∧ (([((0, 0), (3, 4))] ++ ((1, 2), (1, 2)) :: [((3, 4), (5, 6))])
                : List (Point × Point)).foldl
                (closestLoopStep (0, 0)) (0, 0, 100000)
              = (([((0, 0), (3, 4))] ++ [((3, 4), (5, 6))]) : List (Point × Point)).foldl
                  (closestLoopStep (0, 0)) (0, 0, 100000)) :=
  ⟨rfl, degenerate_edge_skipped (0, 0) (0, 0, 100000)
    [((0, 0), (3, 4))] [((3, 4), (5, 6))] ((1, 2), (1, 2)) rfl⟩

/-! ### Concrete square-root facts for the evaluation scenarios -/

theorem sqrt25 : Real.sqrt 25 = 5 := sqrt_eval (by norm_num) (by norm_num)

theorem sqrt100 : Real.sqrt 100 = 10 := sqrt_eval (by norm_num) (by norm_num)

theorem sqrt225 : Real.sqrt 225 = 15 := sqrt_eval (by norm_num) (by norm_num)

theorem sqrt50_gt_5 : (5 : ℝ) < Real.sqrt 50 := by
  rw [show (5 : ℝ) = Real.sqrt 25 from sqrt25.symm]
  exact Real.sqrt_lt_sqrt (by norm_num) (by norm_num)

theorem sqrt50_lt_15 : Real.sqrt 50 < 15 := (Real.sqrt_lt' (by norm_num)).2 (by norm_num)

theorem sqrt250_gt_10 : (10 : ℝ) < Real.sqrt 250 := by
  rw [show (10 : ℝ) = Real.sqrt 100 from sqrt100.symm]
  exact Real.sqrt_lt_sqrt (by norm_num) (by norm_num)

theorem sqrt185_gt_10 : (10 : ℝ) < Real.sqrt 185 := by
  rw [show (10 : ℝ) = Real.sqrt 100 from sqrt100.symm]
  exact Real.sqrt_lt_sqrt (by norm_num) (by norm_num)

theorem sqrt205_gt_10 : (10 : ℝ) < Real.sqrt 205 := by
  rw [show (10 : ℝ) = Real.sqrt 100 from sqrt100.symm]
  exact Real.sqrt_lt_sqrt (by norm_num) (by norm_num)

/-! ### Evaluations on the square, target `(15, 5)` -/

theorem squarePoly_inside_15_5 : isPointInsideSimplePolygon (15, 5) squarePoly = false := by
  rw [isPointInside_eq_pairs, edgePairs_square]
  norm_num [insideCond, List.foldl_cons, List.foldl_nil]

theorem squarePoly_onEdge_15_5 : isPointOnEdgeOfSimplePolygon (15, 5) squarePoly = false := by
  have hnn250 := Real.sqrt_nonneg (250 : ℝ)
  have hnn50 := Real.sqrt_nonneg (50 : ℝ)
  rw [isPointOnEdge_eq_pairs, edgePairs_square]
  simp only [List.any_cons, List.any_nil, Bool.or_eq_false_iff, decide_eq_false_iff_not,
    onEdgeCond, euclideanDistance]
  norm_num [sqrt100]
  refine ⟨?_, ?_, ?_, ?_⟩ <;> intro heq <;>
    nlinarith [sqrt250_gt_10, sqrt50_gt_5, hnn250, hnn50]

theorem closest_square_15_5 :
    closestPointOnSimplePolygonToTarget squarePoly (15, 5) = (10, 5) := by
  have hn1 : ¬ (Real.sqrt 50 < 5) := not_lt.2 (le_of_lt sqrt50_gt_5)
  rw [closest_eq_pairs, if_neg (by simp [squarePoly_inside_15_5, squarePoly_onEdge_15_5]),
    edgePairs_square]
  simp only [List.foldl_cons, List.foldl_nil]
  norm_num [closestLoopStep, edgeCandidate, euclideanDistance, sqrt225, sqrt25,
    sqrt50_lt_15, sqrt50_gt_5, hn1]

/-! ### Evaluations on the square, target `(-3, -4)` -/

theorem squarePoly_inside_m3_m4 : isPointInsideSimplePolygon (-3, -4) squarePoly = false := by
  rw [isPointInside_eq_pairs, edgePairs_square]
  norm_num [insideCond, List.foldl_cons, List.foldl_nil]

theorem squarePoly_onEdge_m3_m4 : isPointOnEdgeOfSimplePolygon (-3, -4) squarePoly = false := by
  have hnn365 := Real.sqrt_nonneg (365 : ℝ)
  have hnn205 := Real.sqrt_nonneg (205 : ℝ)
  have hnn185 := Real.sqrt_nonneg (185 : ℝ)
  rw [isPointOnEdge_eq_pairs, edgePairs_square]
  simp only [List.any_cons, List.any_nil, Bool.or_eq_false_iff, decide_eq_false_iff_not,
    onEdgeCond, euclideanDistance]
  norm_num [sqrt100, sqrt25]
  refine ⟨?_, ?_, ?_, ?_⟩ <;> intro heq <;>
    nlinarith [sqrt185_gt_10, sqrt205_gt_10, hnn365, hnn205, hnn185]

theorem closest_square_m3_m4 :
    closestPointOnSimplePolygonToTarget squarePoly (-3, -4) = (0, 0) := by
  have hn1 : ¬ (Real.sqrt 185 < 5) := not_lt.2 (by linarith [sqrt185_gt_10])
  have hn2 : ¬ (Real.sqrt 205 < 5) := not_lt.2 (by linarith [sqrt205_gt_10])
  rw [closest_eq_pairs, if_neg (by simp [squarePoly_inside_m3_m4, squarePoly_onEdge_m3_m4]),
    edgePairs_square]
  simp only [List.foldl_cons, List.foldl_nil]
  norm_num [closestLoopStep, edgeCandidate, euclideanDistance, sqrt25, hn1, hn2]

/-! ### C5: the spec's concrete square scenarios -/

/-- C5: for the square `[[0,0],[10,0],[10,10],[0,10]]`, the target `(15,5)`
yields the closest point `(10,5)` at distance `5`, and the target `(-3,-4)`
yields the nearest vertex `(0,0)` at distance `5`. -/
theorem square_concrete_scenarios :
    closestPointOnSimplePolygonToTarget squarePoly (15, 5) = (10, 5)
      ∧ euclideanDistance 15 5 10 5 = 5
      ∧ closestPointOnSimplePolygonToTarget squarePoly (-3, -4) = (0, 0)
      ∧ euclideanDistance (-3) (-4) 0 0 = 5 := by
  refine ⟨closest_square_15_5, ?_, closest_square_m3_m4, ?_⟩ <;>
    norm_num [euclideanDistance, sqrt25]

/-- Witness for the amended C1 at the square and the outside target `(15,5)`. -/
theorem closest_outside_on_edge_and_nearest_witness :
    (isPointInsideSimplePolygon (15, 5) squarePoly = false
        ∧ isPointOnEdgeOfSimplePolygon (15, 5) squarePoly = false
        ∧ (∀ e ∈ edgePairs squarePoly, e.1 ≠ e.2)
        ∧ ∃ v ∈ squarePoly,
            euclideanDistance ((15 : ℝ), (5 : ℝ)).1 ((15 : ℝ), (5 : ℝ)).2 v.1 v.2 < 100000)
      ∧ (isPointOnEdgeOfSimplePolygon
            (closestPointOnSimplePolygonToTarget squarePoly (15, 5)) squarePoly = true
          ∧ ∀ v ∈ squarePoly,
              euclideanDistance ((15 : ℝ), (5 : ℝ)).1 ((15 : ℝ), (5 : ℝ)).2
                  (closestPointOnSimplePolygonToTarget squarePoly (15, 5)).1
                  (closestPointOnSimplePolygonToTarget squarePoly (15, 5)).2
                ≤ euclideanDistance ((15 : ℝ), (5 : ℝ)).1 ((15 : ℝ), (5 : ℝ)).2 v.1 v.2) := by
  have h3 : ∀ e ∈ edgePairs squarePoly, e.1 ≠ e.2 := by
    rw [edgePairs_square]
    intro e he
    simp only [List.mem_cons, List.not_mem_nil, or_false] at he
    rcases he with rfl | rfl | rfl | rfl <;> norm_num [Prod.ext_iff]
  have h4 : ∃ v ∈ squarePoly,
      euclideanDistance ((15 : ℝ), (5 : ℝ)).1 ((15 : ℝ), (5 : ℝ)).2 v.1 v.2 < 100000 := by
    refine ⟨(10, 0), by norm_num [squarePoly], ?_⟩
    unfold euclideanDistance
    norm_num
    linarith [sqrt50_lt_15]
  exact ⟨⟨squarePoly_inside_15_5, squarePoly_onEdge_15_5, h3, h4⟩,
    closest_outside_on_edge_and_nearest squarePoly (15, 5)
      squarePoly_inside_15_5 squarePoly_onEdge_15_5 h3 h4⟩

/-! ### A polygon far from the origin (for C1 and C9) -/

/-- A 3-4-5-sided triangle whose every point is at distance `≥ 200000` from
the origin. -/
def farTri : Polygon := [(200000, 0), (200003, 4), (200000, 8)]

theorem edgePairs_farTri :
    edgePairs farTri
      = [((200000, 0), (200000, 8)), ((200003, 4), (200000, 0)),
          ((200000, 8), (200003, 4))] := by
  simp [edgePairs, farTri, List.rotate]

theorem sqrt4e10 : Real.sqrt 40000000000 = 200000 := sqrt_eval (by norm_num) (by norm_num)

theorem sqrt4e10p64_ge : (100000 : ℝ) ≤ Real.sqrt 40000000064 :=
  (Real.le_sqrt (by norm_num) (by norm_num)).2 (by norm_num)

theorem farTri_inside : isPointInsideSimplePolygon (0, 0) farTri = false := by
  rw [isPointInside_eq_pairs, edgePairs_farTri]
  norm_num [insideCond, List.foldl_cons, List.foldl_nil]

theorem farTri_onEdge : isPointOnEdgeOfSimplePolygon (0, 0) farTri = false := by
  have hnn1 := Real.sqrt_nonneg (40000000064 : ℝ)
  have hnn2 := Real.sqrt_nonneg (40001200025 : ℝ)
  have hgt5 : (5 : ℝ) < Real.sqrt 40000000064 :=
    lt_of_lt_of_le (by norm_num) sqrt4e10p64_ge
  rw [isPointOnEdge_eq_pairs, edgePairs_farTri]
  simp only [List.any_cons, List.any_nil, Bool.or_eq_false_iff, decide_eq_false_iff_not,
    onEdgeCond, euclideanDistance]
  norm_num [sqrt4e10, sqrt25, sqrt_eval (by norm_num : (0:ℝ) ≤ 8) (by norm_num : (8:ℝ)^2 = 64)]
  refine ⟨?_, ?_, ?_⟩ <;> intro heq <;> nlinarith [hgt5, hnn1, hnn2]

theorem farTri_closest : closestPointOnSimplePolygonToTarget farTri (0, 0) = (0, 0) := by
  have hn1 : ¬ (Real.sqrt 40000000064 < 100000) := not_lt.2 sqrt4e10p64_ge
  rw [closest_eq_pairs, if_neg (by
    simp [show isPointInsideSimplePolygon 0 farTri = false from farTri_inside,
      show isPointOnEdgeOfSimplePolygon 0 farTri = false from farTri_onEdge]),
    edgePairs_farTri]
  simp only [List.foldl_cons, List.foldl_nil]
  norm_num [closestLoopStep, edgeCandidate, euclideanDistance, sqrt4e10, hn1]

/-- Counterexample to C1 as stated: for the far triangle and the outside
target `(0,0)`, the function returns `(0,0)` — the `100000` initialisation,
not a point of the polygon — and the returned point fails the on-edge test. -/
theorem far_triangle_counterexample :
    isPointInsideSimplePolygon (0, 0) farTri = false
      ∧ isPointOnEdgeOfSimplePolygon (0, 0) farTri = false
      ∧ closestPointOnSimplePolygonToTarget farTri (0, 0) = (0, 0)
      ∧ isPointOnEdgeOfSimplePolygon
          (closestPointOnSimplePolygonToTarget farTri (0, 0)) farTri = false := by
  refine ⟨farTri_inside, farTri_onEdge, farTri_closest, ?_⟩
  rw [farTri_closest]
  exact farTri_onEdge

/-- Witness for C9 at the far triangle: every edge's candidate point is at
distance at least `100000`, and the function returns `(0, 0)`. -/
theorem far_polygon_returns_init_witness :
    (isPointInsideSimplePolygon (0, 0) farTri = false
        ∧ isPointOnEdgeOfSimplePolygon (0, 0) farTri = false
        ∧ ∀ e ∈ edgePairs farTri, e.1 ≠ e.2 → 100000 ≤ candDist (0, 0) e)
      ∧ closestPointOnSimplePolygonToTarget farTri (0, 0) = (0, 0) := by
  have h3 : ∀ e ∈ edgePairs farTri, e.1 ≠ e.2 → 100000 ≤ candDist (0, 0) e := by
    rw [edgePairs_farTri]
    intro e he _
    simp only [List.mem_cons, List.not_mem_nil, or_false] at he
    rcases he with rfl | rfl | rfl <;>
      norm_num [candDist, edgeCandidate, euclideanDistance, sqrt4e10, sqrt4e10p64_ge]
  exact ⟨⟨farTri_inside, farTri_onEdge, h3⟩,
    far_polygon_returns_init farTri (0, 0) farTri_inside farTri_onEdge h3⟩

/-! ### The dart polygon: a distance tie resolved by iteration order (C7) -/

/-- A simple quadrilateral with a notch at `(0,2)`: seen from the origin, the
edges `(0,2)–(-2,0)` and `(2,0)–(0,2)` have the two distinct candidate points
`(-1,1)` and `(1,1)`, both at distance `√2`. -/
def dartP : Polygon := [(-2, 0), (0, 2), (2, 0), (0, 5)]

/-- The same vertices in reversed (opposite-orientation) order. -/
def dartR : Polygon := [(0, 5), (2, 0), (0, 2), (-2, 0)]

theorem dartP_reverse : dartP.reverse = dartR := rfl

theorem edgePairs_dartP :
    edgePairs dartP
      = [((-2, 0), (0, 5)), ((0, 2), (-2, 0)), ((2, 0), (0, 2)), ((0, 5), (2, 0))] := by
  simp [edgePairs, dartP, List.rotate]

theorem edgePairs_dartR :
    edgePairs dartR
      = [((0, 5), (-2, 0)), ((2, 0), (0, 5)), ((0, 2), (2, 0)), ((-2, 0), (0, 2))] := by
  simp [edgePairs, dartR, List.rotate]

theorem sqrt4 : Real.sqrt 4 = 2 := sqrt_eval (by norm_num) (by norm_num)

theorem sqrt29_lt_7 : Real.sqrt 29 < 7 := (Real.sqrt_lt' (by norm_num)).2 (by norm_num)

theorem sqrt8_lt_4 : Real.sqrt 8 < 4 := (Real.sqrt_lt' (by norm_num)).2 (by norm_num)

theorem dartP_inside : isPointInsideSimplePolygon (0, 0) dartP = false := by
  rw [isPointInside_eq_pairs, edgePairs_dartP]
  norm_num [insideCond, List.foldl_cons, List.foldl_nil]

theorem dartR_inside : isPointInsideSimplePolygon (0, 0) dartR = false := by
  rw [isPointInside_eq_pairs, edgePairs_dartR]
  norm_num [insideCond, List.foldl_cons, List.foldl_nil]

theorem dartP_onEdge : isPointOnEdgeOfSimplePolygon (0, 0) dartP = false := by
  rw [isPointOnEdge_eq_pairs, edgePairs_dartP]
  simp only [List.any_cons, List.any_nil, Bool.or_eq_false_iff, decide_eq_false_iff_not,
    onEdgeCond, euclideanDistance]
  norm_num [sqrt4, sqrt25]
  repeat' constructor
  all_goals intro heq
  all_goals nlinarith [sqrt29_lt_7, sqrt8_lt_4]

theorem dartR_onEdge : isPointOnEdgeOfSimplePolygon (0, 0) dartR = false := by
  rw [isPointOnEdge_eq_pairs, edgePairs_dartR]
  simp only [List.any_cons, List.any_nil, Bool.or_eq_false_iff, decide_eq_false_iff_not,
    onEdgeCond, euclideanDistance]
  norm_num [sqrt4, sqrt25]
  repeat' constructor
  all_goals intro heq
  all_goals nlinarith [sqrt29_lt_7, sqrt8_lt_4]

theorem sqrt29_pos : 0 < Real.sqrt 29 := Real.sqrt_pos.2 (by norm_num)

/-- The tied candidates `(±1, 1)` at distance `√2` beat the candidates of the
two long edges, which lie at distance `√(100/29) = √100 / √29`. -/
theorem sqrt2_lt_tie : Real.sqrt 2 < Real.sqrt 100 / Real.sqrt 29 := by
  rw [sqrt100, lt_div_iff₀ sqrt29_pos, ← Real.sqrt_mul (by norm_num : (0:ℝ) ≤ 2)]
  exact (Real.sqrt_lt' (by norm_num)).2 (by norm_num)

theorem tie_lt_init : Real.sqrt 100 / Real.sqrt 29 < 100000 := by
  refine lt_of_le_of_lt (div_le_self (Real.sqrt_nonneg _) ?_) ?_
  · rw [show (1:ℝ) = Real.sqrt 1 from Real.sqrt_one.symm]
    exact Real.sqrt_le_sqrt (by norm_num)
  · rw [sqrt100]; norm_num

theorem dartP_closest : closestPointOnSimplePolygonToTarget dartP (0, 0) = (-1, 1) := by
  have hbig : Real.sqrt 100 / Real.sqrt 29 < 100000 := tie_lt_init
  have hn1 : ¬ (Real.sqrt 2 < Real.sqrt 2) := lt_irrefl _
  have hn2 : ¬ (Real.sqrt 100 / Real.sqrt 29 < Real.sqrt 2) := not_lt.2 (le_of_lt sqrt2_lt_tie)
  rw [closest_eq_pairs, if_neg (by
    simp [show isPointInsideSimplePolygon 0 dartP = false from dartP_inside,
      show isPointOnEdgeOfSimplePolygon 0 dartP = false from dartP_onEdge]),
    edgePairs_dartP]
  simp only [List.foldl_cons, List.foldl_nil]
  norm_num [closestLoopStep, edgeCandidate, euclideanDistance, hbig, sqrt2_lt_tie, hn1, hn2]

theorem dartR_closest : closestPointOnSimplePolygonToTarget dartR (0, 0) = (1, 1) := by
  have hbig : Real.sqrt 100 / Real.sqrt 29 < 100000 := tie_lt_init
  have hn1 : ¬ (Real.sqrt 2 < Real.sqrt 2) := lt_irrefl _
  have hn2 : ¬ (Real.sqrt 100 / Real.sqrt 29 < Real.sqrt 100 / Real.sqrt 29) := lt_irrefl _
  rw [closest_eq_pairs, if_neg (by
    simp [show isPointInsideSimplePolygon 0 dartR = false from dartR_inside,
      show isPointOnEdgeOfSimplePolygon 0 dartR = false from dartR_onEdge]),
    edgePairs_dartR]
  simp only [List.foldl_cons, List.foldl_nil]
  norm_num [closestLoopStep, edgeCandidate, euclideanDistance, hbig, sqrt2_lt_tie, hn1, hn2]

/-- Counterexample to C7 as stated: reversing the vertex order of the dart
changes the result of `closestPointOnSimplePolygonToTarget` for the origin —
the two edges tied at distance `√2` are visited in the opposite order, so the
other tied candidate wins. -/
theorem reverse_changes_closest_point :
    closestPointOnSimplePolygonToTarget dartP (0, 0) = (-1, 1)
      ∧ closestPointOnSimplePolygonToTarget dartP.reverse (0, 0) = (1, 1)
      ∧ closestPointOnSimplePolygonToTarget dartP.reverse (0, 0)
          ≠ closestPointOnSimplePolygonToTarget dartP (0, 0) := by
  refine ⟨dartP_closest, ?_, ?_⟩
  · rw [dartP_reverse]; exact dartR_closest
  · rw [dartP_reverse, dartR_closest, dartP_closest]
    norm_num [Prod.ext_iff]
